import Mathlib

/-!
Shallow embedding of `src/SyncKV.ts` (sync-kv): a client-server synchronized
key-value store with optimistic client mutations, a server-side patch log,
cookie-based pulls and poke notifications.

Conventions of the embedding:
* JS objects (`Record<string, any>`) become association lists in insertion
  order; `obj[k] = v` replaces the existing binding in place or appends.
* JS `undefined` for a missing key becomes `Option.none`.
* The stored values are modelled by `Val` together with JS truthiness,
  which `Transaction.get` relies on via `patch[key] || db[key]`.
* Mutators (user functions over the transaction interface) are deeply
  embedded as `MutProg` programs, interpreted once against the client
  transaction and once against the server transaction, mirroring how the
  same mutator function runs on both sides.
* Fallible paths (unknown mutator name, iterating a missing mutation list,
  reading `mutations[-1].mutationId`) are modelled with `Option` / an
  explicit error component holding the state at the point of the throw.
* Randomly generated identifiers (`randomId()`) are passed in explicitly.
-/

set_option maxRecDepth 4000

/-- A JSON-style value as stored in the KV store (`any` in the source,
restricted to the JSON-serializable values the spec allows). -/
inductive Val where
  | num : Int → Val
  | str : String → Val
  | bool : Bool → Val
  | vnull : Val
  deriving DecidableEq

/-- JS truthiness of a stored value (`0`, `""`, `false`, `null` are falsy). -/
def Val.truthy : Val → Bool
  | .num n => n != 0
  | .str s => s != ""
  | .bool b => b
  | .vnull => false

/-- A JS object field lookup (`obj[k]`, first binding wins; objects built by
`alistSet` never hold duplicate keys). -/
def alistLookup {α : Type} : List (String × α) → String → Option α
  | [], _ => none
  | (k', v) :: rest, k => if k = k' then some v else alistLookup rest k

/-- A JS object field write (`obj[k] = v`): replace the binding in place,
or append the new key at the end (JS insertion order). -/
def alistSet {α : Type} : List (String × α) → String → α → List (String × α)
  | [], k, v => [(k, v)]
  | (k', v') :: rest, k, v =>
    if k = k' then (k', v) :: rest else (k', v') :: alistSet rest k v

/-- `Map.delete(k)`: remove the binding for `k`. -/
def alistRemove {α : Type} : List (String × α) → String → List (String × α)
  | [], _ => []
  | (k', v) :: rest, k => if k = k' then rest else (k', v) :: alistRemove rest k

/-- `Patch` / `Database` from the source: a JS object from keys to values. -/
abbrev Patch := List (String × Val)

/-- `Object.assign(target, src)`: copy every binding of `src` into `target`
in order, overwriting existing keys. -/
def kvAssign (target src : Patch) : Patch :=
  src.foldl (fun acc kv => alistSet acc kv.1 kv.2) target

/-- The keys of an object have no duplicates (true of every real JS object;
stated as a hypothesis where an arbitrary association list is quantified). -/
def kvNodup (p : Patch) : Prop := (p.map Prod.fst).Nodup

instance (p : Patch) : Decidable (kvNodup p) := by
  unfold kvNodup; infer_instance

/-- A deeply embedded mutator body: straight-line interaction with the
`TransactionApi` (`get`/`set`), the only interface mutators may use. -/
inductive MutProg where
  | done : MutProg
  | set : String → Val → MutProg → MutProg
  | get : String → (Option Val → MutProg) → MutProg

/-- `Transaction.get` (client side): `return this.patch[key] || this.db[key]`.
A present-but-falsy patch value falls through to the db. -/
def txGet (db patch : Patch) (k : String) : Option Val :=
  match alistLookup patch k with
  | some v => if v.truthy then some v else alistLookup db k
  | none => alistLookup db k

/-- Run a mutator body against a client `Transaction` (db snapshot plus a
patch buffer), returning the final `tx.patch`. -/
def runClientTx : MutProg → Patch → Patch → Patch
  | .done, _, patch => patch
  | .set k v rest, db, patch => runClientTx rest db (alistSet patch k v)
  | .get k f, db, patch => runClientTx (f (txGet db patch k)) db patch

/-- `SyncKVServer.get` / the log scan in `ServerTransaction.get`: walk the
patch log from newest to oldest and return the first patch containing the
key (the log is ordered oldest-first, so the tail is scanned before the
head patch). -/
def logGet : List Patch → String → Option Val
  | [], _ => none
  | p :: rest, k =>
    match logGet rest k with
    | some v => some v
    | none => alistLookup p k

/-- `ServerTransaction.get`: `key in patch` wins, else the newest log hit. -/
def serverTxGet (log : List Patch) (patch : Patch) (k : String) : Option Val :=
  match alistLookup patch k with
  | some v => some v
  | none => logGet log k

/-- Run a mutator body against a `ServerTransaction` (patch log plus a patch
buffer), returning the final `tx.patch`. -/
def runServerTx : MutProg → List Patch → Patch → Patch
  | .done, _, patch => patch
  | .set k v rest, log, patch => runServerTx rest log (alistSet patch k v)
  | .get k f, log, patch => runServerTx (f (serverTxGet log patch k)) log patch

/-- A registered mutator: from its extra arguments to its body. -/
abbrev Mutator := List Val → MutProg

/-- The mutator registry (`AnyMutators`), shared by client and server. -/
abbrev Mutators := List (String × Mutator)

/-- `this.mutators[key]`: `none` models the `undefined` that makes the
subsequent call throw. -/
def findMutator : Mutators → String → Option Mutator
  | [], _ => none
  | (name, f) :: rest, k => if k = name then some f else findMutator rest k

/-- The wire `Mutation` record: `{ mutationId, key, args }`. -/
structure Mutation where
  mutationId : String
  key : String
  args : List Val
  deriving DecidableEq

/-- `OptimisticMutationRecord`: a pending client mutation with its latest
speculative patch. -/
structure OptimisticMutationRecord where
  mutationId : String
  patch : Patch
  key : String
  args : List Val
  deriving DecidableEq

/-- The mutable fields of `SyncKVClient`. Subscription callbacks are opaque
function references compared by identity; they are modelled by numeric ids.
The dead `pullQueued` flag (its only assignment to `true` is commented out
in the source) is omitted. -/
structure ClientState where
  db : Patch
  optimisticMutations : List OptimisticMutationRecord
  cookie : Option Nat
  subscriptions : List (String × List Nat)
  deriving DecidableEq

/-- A pull response `{ cookie, patch, lastMutationId? }`. -/
structure PullResponse where
  cookie : Nat
  patch : Patch
  lastMutationId : Option String
  deriving DecidableEq

/-- Result of a local `mutate.<name>(...)` call: the new client state, the
keys emitted to watchers (`Object.keys(tx.patch)` in order), and the
mutation pushed to the server. -/
structure MutateResult where
  state : ClientState
  emittedKeys : List String
  pushed : Mutation
  deriving DecidableEq

/-- `mutate.<name>(...args)` with the freshly generated transaction id
`newId`: run the mutator over the current db, enqueue the optimistic
record, emit the patch keys, and hand the mutation to the push.
`none` models the throw on an unknown mutator name. -/
def clientMutate (muts : Mutators) (s : ClientState) (name : String)
    (args : List Val) (newId : String) : Option MutateResult :=
  match findMutator muts name with
  | none => none
  | some f =>
    let patch := runClientTx (f args) s.db []
    some ⟨{ s with optimisticMutations :=
              s.optimisticMutations ++ [⟨newId, patch, name, args⟩] },
          patch.map Prod.fst,
          ⟨newId, name, args⟩⟩

/-- The loop in `SyncKVClient.get`: scan the optimistic queue in insertion
order (oldest first) and return the first patch containing the key. -/
def optimisticLookup : List OptimisticMutationRecord → String → Option Val
  | [], _ => none
  | r :: rest, k =>
    match alistLookup r.patch k with
    | some v => some v
    | none => optimisticLookup rest k

/-- `SyncKVClient.get`: optimistic queue first (oldest record wins), then
the client db, else `undefined`. -/
def clientGet (s : ClientState) (k : String) : Option Val :=
  match optimisticLookup s.optimisticMutations k with
  | some v => some v
  | none => alistLookup s.db k

/-- Modelled from the spec (invariant I1), for comparison with `clientGet`:
the NEWEST optimistic record whose patch contains the key wins, otherwise
the client db, otherwise `undefined`. -/
def specNewestGet (s : ClientState) (k : String) : Option Val :=
  match optimisticLookup s.optimisticMutations.reverse k with
  | some v => some v
  | none => alistLookup s.db k

/-- `optimisticMutations.findIndex(m => m.mutationId === lastMutationId)`. -/
def findAckIndex : List OptimisticMutationRecord → String → Option Nat
  | [], _ => none
  | r :: rest, m =>
    if r.mutationId = m then some 0 else (findAckIndex rest m).map (· + 1)

/-- The rebase loop of `onPull`: re-run each remaining record's mutator
against the updated db with a fresh transaction, keeping every field but
the patch. `none` models the throw on an unknown mutator name. -/
def rebaseAll (muts : Mutators) (db : Patch) :
    List OptimisticMutationRecord → Option (List OptimisticMutationRecord)
  | [] => some []
  | r :: rest =>
    match findMutator muts r.key with
    | none => none
    | some f =>
      match rebaseAll muts db rest with
      | none => none
      | some rs => some ({ r with patch := runClientTx (f r.args) db [] } :: rs)

/-- Result of `onPull`: the new client state and the keys emitted to
watchers, in emission order. -/
structure OnPullResult where
  state : ClientState
  emittedKeys : List String
  deriving DecidableEq

/-- `SyncKVClient.onPull`. `!lastMutationId` is a JS truthiness test, so
both an absent and an empty-string id take the initial-pull branch. In the
rebase branch the server patch is assigned into the db, the records after
the acked index are re-executed (their patches replaced), the prefix up to
the acked index is discarded, the cookie is updated, and the keys of the
server patch merged with all rebased patches are emitted. `none` models an
exception escaping `onPull`. -/
def onPull (muts : Mutators) (s : ClientState) (resp : PullResponse) :
    Option OnPullResult :=
  match resp.lastMutationId with
  | none =>
    some ⟨{ s with db := kvAssign s.db resp.patch, cookie := some resp.cookie },
          resp.patch.map Prod.fst⟩
  | some m =>
    if m = "" then
      some ⟨{ s with db := kvAssign s.db resp.patch, cookie := some resp.cookie },
            resp.patch.map Prod.fst⟩
    else
      match findAckIndex s.optimisticMutations m with
      | none => some ⟨s, []⟩
      | some i =>
        let db1 := kvAssign s.db resp.patch
        match rebaseAll muts db1 (s.optimisticMutations.drop (i + 1)) with
        | none => none
        | some q =>
          let patchToEmit := q.foldl (fun acc r => kvAssign acc r.patch) resp.patch
          some ⟨{ s with db := db1, optimisticMutations := q, cookie := some resp.cookie },
                patchToEmit.map Prod.fst⟩

/-- `SyncKVClient.watch`: append the callback to the key's list, creating
the list on first use. -/
def watch (s : ClientState) (key : String) (cb : Nat) : ClientState :=
  match alistLookup s.subscriptions key with
  | some existing =>
    { s with subscriptions := alistSet s.subscriptions key (existing ++ [cb]) }
  | none =>
    { s with subscriptions := s.subscriptions ++ [(key, [cb])] }

/-- `existing.indexOf(callback) !== -1`. -/
def hasCb : List Nat → Nat → Bool
  | [], _ => false
  | c :: rest, cb => c = cb || hasCb rest cb

/-- `existing.splice(existing.indexOf(callback), 1)`: drop the first
occurrence, or do nothing when absent. -/
def removeFirst : List Nat → Nat → List Nat
  | [], _ => []
  | c :: rest, cb => if c = cb then rest else c :: removeFirst rest cb

/-- Occurrences of a callback in a subscription list. -/
def countOcc : List Nat → Nat → Nat
  | [], _ => 0
  | c :: rest, cb => (if c = cb then 1 else 0) + countOcc rest cb

/-- The closure returned by `watch`: look the key's list up again, return
unchanged when the list is missing or the callback is not found, otherwise
splice out its first occurrence. -/
def unsubscribe (s : ClientState) (key : String) (cb : Nat) : ClientState :=
  match alistLookup s.subscriptions key with
  | none => s
  | some existing =>
    if hasCb existing cb then
      { s with subscriptions :=
          alistSet s.subscriptions key (removeFirst existing cb) }
    else s

/-- The mutable fields of `SyncKVServer`. Connected client handles are
opaque references modelled by numeric ids. -/
structure ServerState where
  db : List Patch
  version : Nat
  lastMutationIds : List (String × String)
  clients : List Nat
  deriving DecidableEq

/-- Result of `SyncKVServer.pull`: the new server state and the response. -/
structure PullResult where
  state : ServerState
  response : PullResponse
  deriving DecidableEq

/-- `SyncKVServer.pull(clientId, cookie = 0)`: consume the pending last
mutation id when truthy (an empty-string entry is returned but not
deleted), merge the log suffix from the cookie left to right, and return
the log length as the new cookie. -/
def serverPull (s : ServerState) (clientId : String) (cookie : Nat) :
    PullResult :=
  let lastMutationId := alistLookup s.lastMutationIds clientId
  let table :=
    match lastMutationId with
    | some m =>
      if m = "" then s.lastMutationIds else alistRemove s.lastMutationIds clientId
    | none => s.lastMutationIds
  let patch := (s.db.drop cookie).foldl (fun acc p => kvAssign acc p) []
  ⟨{ s with lastMutationIds := table },
   ⟨s.db.length, patch, lastMutationId⟩⟩

/-- `SyncKVServer.get`: newest-first scan of the patch log. -/
def serverGet (s : ServerState) (k : String) : Option Val := logGet s.db k

/-- The exception that escapes `SyncKVServer.push`, named by its cause. -/
inductive PushError where
  | missingMutations
  | unknownMutator
  | emptyMutations
  deriving DecidableEq

/-- Observable steps of a push, in execution order: the three state writes
(`db.push`, `version++`, `lastMutationIds.set`) and each `poke()`. -/
inductive PushEvent where
  | appendPatch (patch : Patch)
  | incrementVersion
  | recordLastMutationId (clientId mutationId : String)
  | poke (client : Nat)
  deriving DecidableEq

/-- Whether an event is a `poke()` call. -/
def PushEvent.isPoke : PushEvent → Bool
  | .poke _ => true
  | _ => false

/-- Whether an event writes server state (log append, version increment, or
last-mutation-id record). -/
def PushEvent.isStateWrite : PushEvent → Bool
  | .appendPatch _ => true
  | .incrementVersion => true
  | .recordLastMutationId _ _ => true
  | .poke _ => false

/-- The `for (const { key, args } of mutations)` loop of `push`: run every
mutation against the one shared server transaction; `none` models the
throw on an unknown mutator name (the log is untouched in that case). -/
def runServerMutations (muts : Mutators) (log : List Patch) :
    List Mutation → Patch → Option Patch
  | [], acc => some acc
  | m :: rest, acc =>
    match findMutator muts m.key with
    | none => none
    | some f => runServerMutations muts log rest (runServerTx (f m.args) log acc)

/-- Result of `SyncKVServer.push`: the server state when the call returns
or the exception escapes, the error if one was thrown, and the trace of
observable events that happened before the return or throw. -/
structure PushResult where
  state : ServerState
  error : Option PushError
  trace : List PushEvent
  deriving DecidableEq

/-- `SyncKVServer.push(clientId, mutations)`. A missing list throws when
the `for..of` starts, before any state change. An unknown mutator throws
before the log append. An empty list appends the (empty) transaction patch
and increments the version, then throws reading
`mutations[mutations.length - 1].mutationId`, before the last-mutation-id
table is written and before any poke. On success all three state writes
happen and then every registered client is poked in order. -/
def serverPush (muts : Mutators) (s : ServerState) (clientId : String)
    (mutations : Option (List Mutation)) : PushResult :=
  match mutations with
  | none => ⟨s, some .missingMutations, []⟩
  | some ms =>
    match runServerMutations muts s.db ms [] with
    | none => ⟨s, some .unknownMutator, []⟩
    | some patch =>
      let s1 := { s with db := s.db ++ [patch], version := s.version + 1 }
      match ms.getLast? with
      | none =>
        ⟨s1, some .emptyMutations, [.appendPatch patch, .incrementVersion]⟩
      | some m =>
        ⟨{ s1 with lastMutationIds :=
             alistSet s1.lastMutationIds clientId m.mutationId },
         none,
         [.appendPatch patch, .incrementVersion,
          .recordLastMutationId clientId m.mutationId]
           ++ s.clients.map .poke⟩

/-- The `add` mutator of the repository's test suite, for numeric values:
`tx.set("value", (tx.get("value") ?? 0) + x)`. -/
def addMutator : Mutator := fun args =>
  .get "value" (fun v =>
    .set "value"
      (Val.num ((match v with | some (Val.num n) => n | _ => 0) +
                (match args with | Val.num x :: _ => x | _ => 0)))
      .done)

/-- A mutator that writes nothing. -/
def noopMutator : Mutator := fun _ => .done

/-- A small registry used by the concrete scenarios. -/
def demoMutators : Mutators := [("add", addMutator), ("noop", noopMutator)]

/-- A freshly constructed client before its initial pull resolves. -/
def initialClient : ClientState := ⟨[], [], none, []⟩

/-- The client after `mutate.add(2)` (generated id `"id1"`). -/
def c1ClientA : ClientState :=
  ⟨[], [⟨"id1", [("value", Val.num 2)], "add", [Val.num 2]⟩], none, []⟩

/-- The client after `mutate.add(2); mutate.add(3)` (ids `"id1"`, `"id2"`):
two optimistic records whose patches both contain `"value"`. -/
def c1ClientB : ClientState :=
  ⟨[], [⟨"id1", [("value", Val.num 2)], "add", [Val.num 2]⟩,
        ⟨"id2", [("value", Val.num 3)], "add", [Val.num 3]⟩], none, []⟩

/-- A server with an initial-state patch and one pushed patch. -/
def c4Server : ServerState :=
  ⟨[[("a", Val.num 1), ("b", Val.num 2)], [("a", Val.num 3)]], 2, [], []⟩

/-- A client holding one optimistic record whose generated mutation id is
the empty string (`Math.random().toString(36).slice(2)` can yield `""`). -/
def c3Client : ClientState := ⟨[], [⟨"", [], "noop", []⟩], none, []⟩

/-- A client with two pending `add` records, the first about to be acked. -/
def c3AckClient : ClientState :=
  ⟨[], [⟨"id1", [("value", Val.num 2)], "add", [Val.num 2]⟩,
        ⟨"id2", [("value", Val.num 3)], "add", [Val.num 3]⟩], some 0, []⟩

/-- The pull response acking `"id1"` with the server's patch for it. -/
def c3AckResp : PullResponse := ⟨1, [("value", Val.num 2)], some "id1"⟩

/-- The result of `onPull` on `c3AckClient` with `c3AckResp`: `"id1"` is
acked and dropped, `"id2"` is rebased over the updated db (its patch now
maps `"value"` to `5`). -/
def c10Res : OnPullResult :=
  ⟨⟨[("value", Val.num 2)],
    [⟨"id2", [("value", Val.num 5)], "add", [Val.num 3]⟩], some 1, []⟩,
   ["value"]⟩

/-- If no record's patch contains the key, the optimistic scan misses. -/
theorem optimisticLookup_all_none {l : List OptimisticMutationRecord} {k : String}
    (h : ∀ r ∈ l, alistLookup r.patch k = none) : optimisticLookup l k = none := by
  induction l with
  | nil => rfl
  | cons r rest ih =>
    simp only [optimisticLookup]
    rw [h r (List.mem_cons_self r rest)]
    exact ih (fun q hq => h q (List.mem_cons_of_mem _ hq))

/-- The optimistic scan returns the first (oldest) record whose patch
contains the key. -/
theorem optimisticLookup_first_hit {pre : List OptimisticMutationRecord}
    {r : OptimisticMutationRecord} {post : List OptimisticMutationRecord}
    {k : String} {v : Val}
    (hpre : ∀ q ∈ pre, alistLookup q.patch k = none)
    (hr : alistLookup r.patch k = some v) :
    optimisticLookup (pre ++ r :: post) k = some v := by
  induction pre with
  | nil =>
    simp only [List.nil_append, optimisticLookup]
    rw [hr]
  | cons q pre ih =>
    simp only [List.cons_append, optimisticLookup]
    rw [hpre q (List.mem_cons_self q pre)]
    exact ih (fun p hp => hpre p (List.mem_cons_of_mem _ hp))

/-- C1 counterexample: on the reachable state after `mutate.add(2);
mutate.add(3)` (both patches contain `"value"`), `client.get` returns the
OLDEST record's value `2`, while the claim's newest-record rule (modelled
by `specNewestGet`) gives `3`. -/
theorem c1_counterexample :
    clientMutate demoMutators initialClient "add" [Val.num 2] "id1" =
      some ⟨c1ClientA, ["value"], ⟨"id1", "add", [Val.num 2]⟩⟩
    ∧ clientMutate demoMutators c1ClientA "add" [Val.num 3] "id2" =
      some ⟨c1ClientB, ["value"], ⟨"id2", "add", [Val.num 3]⟩⟩
    ∧ clientGet c1ClientB "value" = some (Val.num 2)
    ∧ specNewestGet c1ClientB "value" = some (Val.num 3)
    ∧ (some (Val.num 2) : Option Val) ≠ some (Val.num 3) := by decide

/-- C1 (amended): for every client state and key, `client.get` returns the
value of the OLDEST optimistic record whose patch contains the key (the
queue is scanned in insertion order); if no optimistic patch contains the
key it returns the client DB's value, and `undefined` (`none`) when the DB
misses too. -/
theorem c1_client_get_oldest_wins (s : ClientState) (k : String) :
    (∀ pre r post v, s.optimisticMutations = pre ++ r :: post →
        (∀ q ∈ pre, alistLookup q.patch k = none) →
        alistLookup r.patch k = some v →
        clientGet s k = some v)
    ∧ ((∀ r ∈ s.optimisticMutations, alistLookup r.patch k = none) →
        clientGet s k = alistLookup s.db k) := by
  constructor
  · intro pre r post v hsplit hpre hr
    unfold clientGet
    rw [hsplit, optimisticLookup_first_hit hpre hr]
  · intro h
    unfold clientGet
    rw [optimisticLookup_all_none h]

/-- Witness for the amended C1 theorem at the two-record state. -/
theorem c1_client_get_oldest_wins_witness :
    clientGet c1ClientB "value" = some (Val.num 2) :=
  (c1_client_get_oldest_wins c1ClientB "value").1 []
    ⟨"id1", [("value", Val.num 2)], "add", [Val.num 2]⟩
    [⟨"id2", [("value", Val.num 3)], "add", [Val.num 3]⟩]
    (Val.num 2) rfl (fun q hq => absurd hq (List.not_mem_nil q)) (by decide)

/-- C2: the client `Transaction.get` evaluates `patch[key] || db[key]`, so
a present-but-falsy patch value (here `0`) falls through to the db value
`5`, although the key was set in the patch; the claim (and the server-side
transaction in the same file, shown for contrast) give the patch's `0`. -/
theorem c2_transaction_get_falsy :
    txGet [("k", Val.num 5)] [("k", Val.num 0)] "k" = some (Val.num 5)
    ∧ serverTxGet [[("k", Val.num 5)]] [("k", Val.num 0)] "k" = some (Val.num 0)
    ∧ (some (Val.num 5) : Option Val) ≠ some (Val.num 0) := by decide

/-- C5 counterexample: pushing an empty mutation list to an empty server
appends an empty patch to the log and increments the version before the
error (`mutations[mutations.length - 1].mutationId` throws), so the log
does NOT keep its prior value. -/
theorem c5_counterexample :
    serverPush demoMutators ⟨[], 0, [], []⟩ "c1" (some []) =
      ⟨⟨[[]], 1, [], []⟩, some PushError.emptyMutations,
       [PushEvent.appendPatch [], PushEvent.incrementVersion]⟩
    ∧ ([[]] : List Patch) ≠ [] := by decide

/-- C5 (amended): a push with a missing or empty mutation list fails with
an error, executes no mutator, emits no poke, and leaves the
last-mutation-id table unchanged; a missing list also leaves the log and
version unchanged, while an empty list appends one empty patch to the log
and increments the version before the error. -/
theorem c5_empty_push_rejected (muts : Mutators) (s : ServerState)
    (clientId : String) :
    serverPush muts s clientId none = ⟨s, some PushError.missingMutations, []⟩
    ∧ serverPush muts s clientId (some []) =
        ⟨{ s with db := s.db ++ [[]], version := s.version + 1 },
         some PushError.emptyMutations,
         [PushEvent.appendPatch [], PushEvent.incrementVersion]⟩ :=
  ⟨rfl, rfl⟩

/-- A field write changes exactly the written key's lookup. -/
theorem alistLookup_alistSet {α : Type} (m : List (String × α)) (k k' : String)
    (v : α) :
    alistLookup (alistSet m k v) k' =
      if k' = k then some v else alistLookup m k' := by
  induction m with
  | nil => simp [alistSet, alistLookup]
  | cons kv rest ih =>
    obtain ⟨k0, v0⟩ := kv
    by_cases hk : k = k0
    · subst hk
      by_cases h2 : k' = k <;> simp [alistSet, alistLookup, h2]
    · by_cases h2 : k' = k0
      · subst h2
        have hne : ¬k' = k := fun h => hk (h ▸ rfl)
        simp [alistSet, alistLookup, hk, hne]
      · simp [alistSet, alistLookup, hk, h2, ih]

/-- A key outside an object's key set looks up to `undefined`. -/
theorem alistLookup_eq_none {α : Type} {m : List (String × α)} {k : String}
    (h : k ∉ m.map Prod.fst) : alistLookup m k = none := by
  induction m with
  | nil => rfl
  | cons kv rest ih =>
    obtain ⟨k0, v0⟩ := kv
    simp only [List.map_cons, List.mem_cons] at h
    push_neg at h
    simp [alistLookup, h.1, ih h.2]

/-- `Object.assign` semantics of lookup: the source object wins on its own
keys and the target answers the rest (the source being a real JS object,
its keys hold no duplicates). -/
theorem alistLookup_kvAssign (src : Patch) :
    ∀ (t : Patch) (k : String), kvNodup src →
      alistLookup (kvAssign t src) k =
        match alistLookup src k with
        | some v => some v
        | none => alistLookup t k := by
  induction src with
  | nil => intro t k _; rfl
  | cons kv rest ih =>
    intro t k hnd
    obtain ⟨k0, v0⟩ := kv
    have hmap : (k0 :: rest.map Prod.fst).Nodup := hnd
    have hnd0 : k0 ∉ rest.map Prod.fst := (List.nodup_cons.mp hmap).1
    have hnd' : kvNodup rest := (List.nodup_cons.mp hmap).2
    have hstep : kvAssign t ((k0, v0) :: rest) = kvAssign (alistSet t k0 v0) rest := rfl
    rw [hstep, ih (alistSet t k0 v0) k hnd']
    by_cases hk : k = k0
    · subst hk
      rw [alistLookup_eq_none hnd0]
      simp [alistLookup, alistLookup_alistSet]
    · cases hrest : alistLookup rest k <;>
        simp [alistLookup, hk, alistLookup_alistSet, hrest]

/-- Left-to-right overwrite merging of a patch sequence looks up to the
newest (rightmost) patch containing the key, with the fold's seed
answering the rest. -/
theorem alistLookup_foldl_kvAssign (L : List Patch) :
    ∀ (init : Patch) (k : String), (∀ p ∈ L, kvNodup p) →
      alistLookup (L.foldl (fun acc p => kvAssign acc p) init) k =
        match logGet L k with
        | some v => some v
        | none => alistLookup init k := by
  induction L with
  | nil => intro init k _; rfl
  | cons p rest ih =>
    intro init k h
    rw [List.foldl_cons,
        ih (kvAssign init p) k (fun q hq => h q (List.mem_cons_of_mem _ hq)),
        alistLookup_kvAssign p init k (h p (List.mem_cons_self p rest))]
    show _ = (match logGet (p :: rest) k with
              | some v => some v
              | none => alistLookup init k)
    simp only [logGet]
    cases hrest : logGet rest k <;> cases hp : alistLookup p k <;> rfl

/-- C4: for every server state (its log patches being real JS objects,
hence duplicate-free) and every pull cookie, the returned cookie is the
current version `|L|`, the returned patch answers every key with the value
of the newest suffix patch (`L[cookie..]`) containing it, and a cookie
beyond the current version yields the empty patch. -/
theorem c4_pull_merges_suffix (s : ServerState) (clientId : String) (c : Nat)
    (hnd : ∀ p ∈ s.db, kvNodup p) :
    (serverPull s clientId c).response.cookie = s.db.length
    ∧ (∀ k, alistLookup (serverPull s clientId c).response.patch k
          = logGet (s.db.drop c) k)
    ∧ (s.db.length < c → (serverPull s clientId c).response.patch = []) := by
  refine ⟨rfl, ?_, ?_⟩
  · intro k
    show alistLookup ((s.db.drop c).foldl (fun acc p => kvAssign acc p) []) k = _
    rw [alistLookup_foldl_kvAssign _ _ _
          (fun p hp => hnd p (List.drop_subset c s.db hp))]
    cases h : logGet (s.db.drop c) k <;> rfl
  · intro hc
    show ((s.db.drop c).foldl (fun acc p => kvAssign acc p) []) = []
    rw [List.drop_eq_nil_of_le (le_of_lt hc)]
    rfl

/-- Witness for C4 on a two-patch log pulled with cookie 1. -/
theorem c4_pull_merges_suffix_witness :
    (serverPull c4Server "c1" 1).response.cookie = c4Server.db.length
    ∧ alistLookup (serverPull c4Server "c1" 1).response.patch "a"
        = logGet (c4Server.db.drop 1) "a" :=
  ⟨(c4_pull_merges_suffix c4Server "c1" 1 (by decide)).1,
   (c4_pull_merges_suffix c4Server "c1" 1 (by decide)).2.1 "a"⟩

/-- `findIndex` misses when no record carries the searched mutation id. -/
theorem findAckIndex_eq_none {l : List OptimisticMutationRecord} {m : String}
    (h : ∀ r ∈ l, r.mutationId ≠ m) : findAckIndex l m = none := by
  induction l with
  | nil => rfl
  | cons r rest ih =>
    simp only [findAckIndex]
    rw [if_neg (h r (List.mem_cons_self r rest)),
        ih (fun q hq => h q (List.mem_cons_of_mem _ hq))]
    rfl

/-- C6 (amended): a pull response carrying a NONEMPTY `lastMutationId` that
matches no optimistic record makes `onPull` log and return: no crash, the
whole client state (db, cookie, queue, subscriptions) unchanged, and no
watcher notification emitted. (An empty-string id instead falls into the
initial-pull branch, see the counterexample.) -/
theorem c6_unknown_ack_ignored (muts : Mutators) (s : ClientState)
    (resp : PullResponse) (m : String)
    (hm : resp.lastMutationId = some m) (hne : m ≠ "")
    (hno : ∀ r ∈ s.optimisticMutations, r.mutationId ≠ m) :
    onPull muts s resp = some ⟨s, []⟩ := by
  simp only [onPull, hm]
  rw [if_neg hne, findAckIndex_eq_none hno]

/-- Witness for the amended C6 theorem: an ack for `"zz"` on a client that
only holds `"id1"`. -/
theorem c6_unknown_ack_ignored_witness :
    onPull demoMutators c1ClientA ⟨7, [("x", Val.num 1)], some "zz"⟩ =
      some ⟨c1ClientA, []⟩ :=
  c6_unknown_ack_ignored demoMutators c1ClientA
    ⟨7, [("x", Val.num 1)], some "zz"⟩ "zz" rfl (by decide) (by decide)

/-- C6 counterexample: a response carrying `lastMutationId = ""` matches no
record of the (empty) queue, yet `!lastMutationId` treats it as an initial
pull: the db is overwritten, the cookie set, and a notification emitted —
the state does NOT keep its prior values. -/
theorem c6_counterexample :
    onPull demoMutators initialClient ⟨5, [("k", Val.num 1)], some ""⟩ =
      some ⟨⟨[("k", Val.num 1)], [], some 5, []⟩, ["k"]⟩
    ∧ (⟨[("k", Val.num 1)], [], some 5, []⟩ : ClientState) ≠ initialClient
    ∧ (["k"] : List String) ≠ ([] : List String) := by decide

/-- The pull response always reports the table entry looked up for the
client (present or not). -/
theorem serverPull_response_last (s : ServerState) (clientId : String)
    (c : Nat) :
    (serverPull s clientId c).response.lastMutationId =
      alistLookup s.lastMutationIds clientId := rfl

/-- The pull leaves the table unchanged on a missing or empty entry and
deletes the client's entry otherwise. -/
theorem serverPull_state_table (s : ServerState) (clientId : String)
    (c : Nat) :
    (serverPull s clientId c).state.lastMutationIds =
      match alistLookup s.lastMutationIds clientId with
      | some m =>
        if m = "" then s.lastMutationIds
        else alistRemove s.lastMutationIds clientId
      | none => s.lastMutationIds := rfl

/-- Removing a key from a duplicate-free table makes its lookup miss. -/
theorem alistLookup_alistRemove_self {α : Type} {m : List (String × α)}
    {k : String} (hnd : (m.map Prod.fst).Nodup) :
    alistLookup (alistRemove m k) k = none := by
  induction m with
  | nil => rfl
  | cons kv rest ih =>
    obtain ⟨k0, v0⟩ := kv
    have hmap := List.nodup_cons.mp (hnd : (k0 :: rest.map Prod.fst).Nodup)
    by_cases hk : k = k0
    · subst hk
      simp only [alistRemove, if_pos rfl]
      exact alistLookup_eq_none hmap.1
    · simp only [alistRemove, if_neg hk, alistLookup]
      exact ih hmap.2

/-- C7 (amended): a pull consumes a pending NONEMPTY last-mutation-id: the
response carries it, the entry is deleted, and a second pull carries none;
with no pending entry the response carries none and the table is
unchanged. (An empty-string entry is reported but never consumed, see the
counterexample.) -/
theorem c7_pull_consumes_ack (s : ServerState) (clientId : String) (c : Nat)
    (hnd : (s.lastMutationIds.map Prod.fst).Nodup) :
    (∀ m, alistLookup s.lastMutationIds clientId = some m → m ≠ "" →
        (serverPull s clientId c).response.lastMutationId = some m
        ∧ alistLookup (serverPull s clientId c).state.lastMutationIds clientId
            = none
        ∧ ∀ c2, (serverPull (serverPull s clientId c).state clientId
            c2).response.lastMutationId = none)
    ∧ (alistLookup s.lastMutationIds clientId = none →
        (serverPull s clientId c).response.lastMutationId = none
        ∧ (serverPull s clientId c).state.lastMutationIds
            = s.lastMutationIds) := by
  constructor
  · intro m hm hne
    have hstate : (serverPull s clientId c).state.lastMutationIds
        = alistRemove s.lastMutationIds clientId := by
      rw [serverPull_state_table, hm]
      exact if_neg hne
    refine ⟨?_, ?_, ?_⟩
    · rw [serverPull_response_last]; exact hm
    · rw [hstate]; exact alistLookup_alistRemove_self hnd
    · intro c2
      rw [serverPull_response_last, hstate]
      exact alistLookup_alistRemove_self hnd
  · intro hm
    refine ⟨?_, ?_⟩
    · rw [serverPull_response_last]; exact hm
    · rw [serverPull_state_table, hm]

/-- Witness for the amended C7 theorem: both a pending entry `"id9"` being
consumed and the no-entry case on the resulting state. -/
theorem c7_pull_consumes_ack_witness :
    (serverPull ⟨[], 0, [("c1", "id9")], []⟩ "c1" 0).response.lastMutationId
      = some "id9"
    ∧ alistLookup (serverPull ⟨[], 0, [("c1", "id9")], []⟩ "c1"
        0).state.lastMutationIds "c1" = none :=
  ⟨((c7_pull_consumes_ack ⟨[], 0, [("c1", "id9")], []⟩ "c1" 0 (by decide)).1
      "id9" (by decide) (by decide)).1,
   ((c7_pull_consumes_ack ⟨[], 0, [("c1", "id9")], []⟩ "c1" 0 (by decide)).1
      "id9" (by decide) (by decide)).2.1⟩

/-- C7 counterexample: a pending empty-string mutation id (reachable: the
server accepts any pushed `mutationId`, and `randomId()` can generate
`""`). The response includes it, but `if (lastMutationId)` is falsy so the
entry is NOT removed, and a second pull with no intervening push still
carries it. -/
theorem c7_counterexample :
    (serverPush demoMutators ⟨[], 0, [], []⟩ "c1"
        (some [⟨"", "noop", []⟩])).state = ⟨[[]], 1, [("c1", "")], []⟩
    ∧ (serverPull ⟨[[]], 1, [("c1", "")], []⟩ "c1" 0).response.lastMutationId
        = some ""
    ∧ (serverPull ⟨[[]], 1, [("c1", "")], []⟩ "c1" 0).state.lastMutationIds
        = [("c1", "")]
    ∧ (serverPull (serverPull ⟨[[]], 1, [("c1", "")], []⟩ "c1" 0).state "c1"
        1).response.lastMutationId = some ""
    ∧ (some "" : Option String) ≠ none := by decide

/-- A field write's key set is the old key set plus the written key. -/
theorem mem_keys_alistSet {α : Type} (m : List (String × α)) (k k' : String)
    (v : α) :
    k' ∈ (alistSet m k v).map Prod.fst ↔ k' ∈ m.map Prod.fst ∨ k' = k := by
  induction m with
  | nil => simp [alistSet]
  | cons kv rest ih =>
    obtain ⟨k0, v0⟩ := kv
    by_cases hk : k = k0
    · subst hk
      have hset : alistSet ((k, v0) :: rest) k v = (k, v) :: rest := by
        simp [alistSet]
      rw [hset]
      simp only [List.map_cons, List.mem_cons]
      tauto
    · simp only [alistSet, if_neg hk, List.map_cons, List.mem_cons, ih]
      tauto

/-- `Object.assign` unions the key sets. -/
theorem mem_keys_kvAssign (src : Patch) :
    ∀ (t : Patch) (k : String),
      k ∈ (kvAssign t src).map Prod.fst ↔
        k ∈ t.map Prod.fst ∨ k ∈ src.map Prod.fst := by
  induction src with
  | nil => intro t k; simp [kvAssign]
  | cons kv rest ih =>
    intro t k
    obtain ⟨k0, v0⟩ := kv
    have hstep : kvAssign t ((k0, v0) :: rest)
        = kvAssign (alistSet t k0 v0) rest := rfl
    rw [hstep, ih (alistSet t k0 v0) k]
    simp only [mem_keys_alistSet, List.map_cons, List.mem_cons]
    tauto

/-- Folding `Object.assign` over a record list unions all patch key sets
onto the seed's. -/
theorem mem_keys_foldl (q : List OptimisticMutationRecord) :
    ∀ (init : Patch) (k : String),
      k ∈ (q.foldl (fun acc r => kvAssign acc r.patch) init).map Prod.fst ↔
        k ∈ init.map Prod.fst ∨ ∃ r ∈ q, k ∈ r.patch.map Prod.fst := by
  induction q with
  | nil => intro init k; simp
  | cons r rest ih =>
    intro init k
    rw [List.foldl_cons, ih (kvAssign init r.patch) k, mem_keys_kvAssign]
    simp only [List.mem_cons]
    constructor
    · rintro ((h | h) | ⟨p, hp, h⟩)
      · exact Or.inl h
      · exact Or.inr ⟨r, Or.inl rfl, h⟩
      · exact Or.inr ⟨p, Or.inr hp, h⟩
    · rintro (h | ⟨p, (rfl | hp), h⟩)
      · exact Or.inl (Or.inl h)
      · exact Or.inl (Or.inr h)
      · exact Or.inr ⟨p, hp, h⟩

/-- The rebase loop succeeds when every remaining record's mutator name
resolves. -/
theorem rebaseAll_isSome (muts : Mutators) (db : Patch)
    (l : List OptimisticMutationRecord)
    (h : ∀ r ∈ l, (findMutator muts r.key).isSome = true) :
    ∃ q, rebaseAll muts db l = some q := by
  induction l with
  | nil => exact ⟨[], rfl⟩
  | cons r rest ih =>
    obtain ⟨f, hf⟩ :=
      Option.isSome_iff_exists.mp (h r (List.mem_cons_self r rest))
    obtain ⟨q, hq⟩ := ih (fun p hp => h p (List.mem_cons_of_mem _ hp))
    refine ⟨{ r with patch := runClientTx (f r.args) db [] } :: q, ?_⟩
    simp only [rebaseAll]
    rw [hf, hq]

/-- The rebase loop keeps the queue length. -/
theorem rebaseAll_length {muts : Mutators} {db : Patch}
    {l q : List OptimisticMutationRecord}
    (h : rebaseAll muts db l = some q) : q.length = l.length := by
  induction l generalizing q with
  | nil =>
    simp only [rebaseAll, Option.some.injEq] at h
    subst h; rfl
  | cons r rest ih =>
    simp only [rebaseAll] at h
    cases hf : findMutator muts r.key with
    | none => rw [hf] at h; exact absurd h (by simp)
    | some f =>
      rw [hf] at h
      cases hr : rebaseAll muts db rest with
      | none => rw [hr] at h; exact absurd h (by simp)
      | some rs =>
        rw [hr] at h
        obtain rfl : ({ r with patch := runClientTx (f r.args) db [] } :: rs)
            = q := Option.some.inj h
        simp [ih hr]

/-- Elementwise description of the rebase loop: position `j` of the output
is position `j` of the input with only its patch replaced by the freshly
computed one. -/
theorem rebaseAll_get {muts : Mutators} {db : Patch}
    {l q : List OptimisticMutationRecord}
    (h : rebaseAll muts db l = some q) :
    ∀ j old, l.get? j = some old →
      ∃ f, findMutator muts old.key = some f
        ∧ q.get? j = some { old with patch := runClientTx (f old.args) db [] } := by
  induction l generalizing q with
  | nil => intro j old hj; simp at hj
  | cons r rest ih =>
    intro j old hj
    simp only [rebaseAll] at h
    cases hf : findMutator muts r.key with
    | none => rw [hf] at h; exact absurd h (by simp)
    | some f =>
      rw [hf] at h
      cases hr : rebaseAll muts db rest with
      | none => rw [hr] at h; exact absurd h (by simp)
      | some rs =>
        rw [hr] at h
        obtain rfl : ({ r with patch := runClientTx (f r.args) db [] } :: rs)
            = q := Option.some.inj h
        cases j with
        | zero =>
          obtain rfl : r = old := Option.some.inj hj
          exact ⟨f, hf, rfl⟩
        | succ j => exact ih hr j old (by simpa using hj)

/-- Reduction of `onPull` in the acked-and-rebase branch. -/
theorem onPull_rebase_eq (muts : Mutators) (s : ClientState)
    (resp : PullResponse) (m : String) (i : Nat)
    (q : List OptimisticMutationRecord)
    (hm : resp.lastMutationId = some m) (hne : m ≠ "")
    (hidx : findAckIndex s.optimisticMutations m = some i)
    (hreb : rebaseAll muts (kvAssign s.db resp.patch)
        (s.optimisticMutations.drop (i + 1)) = some q) :
    onPull muts s resp =
      some ⟨{ s with db := kvAssign s.db resp.patch, optimisticMutations := q, cookie := some resp.cookie },
            (q.foldl (fun acc r => kvAssign acc r.patch) resp.patch).map
              Prod.fst⟩ := by
  simp only [onPull, hm]
  rw [if_neg hne, hidx]
  simp only [hreb]

/-- C3 (amended): when a pull response carries a NONEMPTY `lastMutationId`
found first at position `i` of the optimistic queue (and the remaining
records' mutator names resolve), `onPull` discards every record at
position ≤ `i`, re-executes each later record against the db updated with
the server patch (replacing its stored patch with the fresh one), sets the
cookie to the response's cookie, and emits exactly the keys in the union
of the server patch's keys and the rebased patches' keys. -/
theorem c3_ack_discard_rebase (muts : Mutators) (s : ClientState)
    (resp : PullResponse) (m : String) (i : Nat)
    (hm : resp.lastMutationId = some m) (hne : m ≠ "")
    (hidx : findAckIndex s.optimisticMutations m = some i)
    (hres : ∀ r ∈ s.optimisticMutations.drop (i + 1),
        (findMutator muts r.key).isSome = true) :
    ∃ res, onPull muts s resp = some res
      ∧ res.state.db = kvAssign s.db resp.patch
      ∧ res.state.cookie = some resp.cookie
      ∧ res.state.subscriptions = s.subscriptions
      ∧ res.state.optimisticMutations.length
          = s.optimisticMutations.length - (i + 1)
      ∧ (∀ j old, (s.optimisticMutations.drop (i + 1)).get? j = some old →
            ∃ f, findMutator muts old.key = some f
              ∧ res.state.optimisticMutations.get? j =
                  some { old with
                          patch := runClientTx (f old.args)
                            (kvAssign s.db resp.patch) [] })
      ∧ (∀ k, k ∈ res.emittedKeys ↔
            (k ∈ resp.patch.map Prod.fst
             ∨ ∃ r ∈ res.state.optimisticMutations,
                 k ∈ r.patch.map Prod.fst)) := by
  obtain ⟨q, hq⟩ := rebaseAll_isSome muts (kvAssign s.db resp.patch) _ hres
  refine ⟨_, onPull_rebase_eq muts s resp m i q hm hne hidx hq,
    rfl, rfl, rfl, ?_, ?_, ?_⟩
  · show q.length = _
    rw [rebaseAll_length hq, List.length_drop]
  · intro j old hj
    exact rebaseAll_get hq j old hj
  · intro k
    exact mem_keys_foldl q resp.patch k

/-- Witness for the amended C3 theorem: acking `"id1"` on the two-record
client rebases `"id2"` and emits `"value"`. -/
theorem c3_ack_discard_rebase_witness :
    ∃ res, onPull demoMutators c3AckClient c3AckResp = some res
      ∧ res.state.db = kvAssign c3AckClient.db c3AckResp.patch
      ∧ res.state.cookie = some c3AckResp.cookie :=
  (c3_ack_discard_rebase demoMutators c3AckClient c3AckResp "id1" 0 rfl
      (by decide) (by decide) (by decide)).elim
    (fun res h => ⟨res, h.1, h.2.1, h.2.2.1⟩)

/-- C3 counterexample: a queue whose single record carries the (reachable)
empty-string mutation id, acked by a response with `lastMutationId = ""`.
The claim demands that the record at position 0 be discarded, but
`!lastMutationId` routes the response to the initial-pull branch and the
queue keeps the record. -/
theorem c3_counterexample :
    clientMutate demoMutators initialClient "noop" [] "" =
      some ⟨c3Client, [], ⟨"", "noop", []⟩⟩
    ∧ onPull demoMutators c3Client ⟨3, [], some ""⟩ =
      some ⟨⟨[], [⟨"", [], "noop", []⟩], some 3, []⟩, []⟩
    ∧ ([⟨"", [], "noop", []⟩] : List OptimisticMutationRecord) ≠ [] := by
  decide

/-- C10: every optimistic record re-executed during the rebase branch of
`onPull` keeps its `mutationId`, `key` (mutator name) and `args`; only the
patch field is replaced, so a later server acknowledgement by mutation id
still matches the rebased record. -/
theorem c10_rebase_preserves_identity (muts : Mutators) (s : ClientState)
    (resp : PullResponse) (m : String) (i : Nat) (res : OnPullResult)
    (hm : resp.lastMutationId = some m) (hne : m ≠ "")
    (hidx : findAckIndex s.optimisticMutations m = some i)
    (hrun : onPull muts s resp = some res) :
    ∀ j old, (s.optimisticMutations.drop (i + 1)).get? j = some old →
      ∃ r, res.state.optimisticMutations.get? j = some r
        ∧ r.mutationId = old.mutationId ∧ r.key = old.key
        ∧ r.args = old.args := by
  simp only [onPull, hm] at hrun
  rw [if_neg hne] at hrun
  simp only [hidx] at hrun
  cases hreb : rebaseAll muts (kvAssign s.db resp.patch)
      (s.optimisticMutations.drop (i + 1)) with
  | none => rw [hreb] at hrun; exact absurd hrun (by simp)
  | some q =>
    rw [hreb] at hrun
    obtain rfl := Option.some.inj hrun
    intro j old hj
    obtain ⟨f, hf, hq⟩ := rebaseAll_get hreb j old hj
    exact ⟨_, hq, rfl, rfl, rfl⟩

/-- Witness for C10: the rebased `"id2"` record keeps id, name and args. -/
theorem c10_rebase_preserves_identity_witness :
    ∃ r, c10Res.state.optimisticMutations.get? 0 = some r
      ∧ r.mutationId = "id2" ∧ r.key = "add" ∧ r.args = [Val.num 3] :=
  c10_rebase_preserves_identity demoMutators c3AckClient c3AckResp "id1" 0
    c10Res rfl (by decide) (by decide) (by decide) 0
    ⟨"id2", [("value", Val.num 3)], "add", [Val.num 3]⟩ (by decide)

/-- In a trace that is all non-pokes followed by all non-state-writes,
every state write precedes every poke. -/
theorem trace_pokes_last (pre post : List PushEvent) (i j : Nat)
    (e e' : PushEvent)
    (hpre : ∀ ev ∈ pre, ev.isPoke = false)
    (hpost : ∀ ev ∈ post, ev.isStateWrite = false)
    (hi : (pre ++ post).get? i = some e) (hpoke : e.isPoke = true)
    (hj : (pre ++ post).get? j = some e') (hw : e'.isStateWrite = true) :
    j < i := by
  have hilen : pre.length ≤ i := by
    by_contra hlt
    push_neg at hlt
    rw [List.get?_append hlt] at hi
    rw [hpre e (List.get?_mem hi)] at hpoke
    exact Bool.false_ne_true hpoke
  have hjlen : j < pre.length := by
    by_contra hge
    push_neg at hge
    rw [List.get?_append_right hge] at hj
    rw [hpost e' (List.get?_mem hj)] at hw
    exact Bool.false_ne_true hw
  exact lt_of_lt_of_le hjlen hilen

/-- C8: in every push, the state writes (log append, version increment,
last-mutation-id record) all occur strictly before any `poke()` on any
registered client handle, at every position of the push's event trace. -/
theorem c8_writes_before_pokes (muts : Mutators) (s : ServerState)
    (clientId : String) (mutations : Option (List Mutation)) (i j : Nat)
    (e e' : PushEvent)
    (hi : (serverPush muts s clientId mutations).trace.get? i = some e)
    (hpoke : e.isPoke = true)
    (hj : (serverPush muts s clientId mutations).trace.get? j = some e')
    (hw : e'.isStateWrite = true) :
    j < i := by
  cases mutations with
  | none =>
    exact trace_pokes_last [] [] i j e e'
      (fun ev hev => absurd hev (List.not_mem_nil ev))
      (fun ev hev => absurd hev (List.not_mem_nil ev)) hi hpoke hj hw
  | some ms =>
    cases hrun : runServerMutations muts s.db ms [] with
    | none =>
      have htr : (serverPush muts s clientId (some ms)).trace = [] ++ [] := by
        simp [serverPush, hrun]
      rw [htr] at hi hj
      exact trace_pokes_last [] [] i j e e'
        (fun ev hev => absurd hev (List.not_mem_nil ev))
        (fun ev hev => absurd hev (List.not_mem_nil ev)) hi hpoke hj hw
    | some patch =>
      cases hlast : ms.getLast? with
      | none =>
        have htr : (serverPush muts s clientId (some ms)).trace =
            [PushEvent.appendPatch patch, PushEvent.incrementVersion]
              ++ [] := by
          simp [serverPush, hrun, hlast]
        rw [htr] at hi hj
        refine trace_pokes_last _ [] i j e e' ?_
          (fun ev hev => absurd hev (List.not_mem_nil ev)) hi hpoke hj hw
        intro ev hev
        rcases List.mem_cons.mp hev with rfl | hev
        · rfl
        rcases List.mem_cons.mp hev with rfl | hev
        · rfl
        exact absurd hev (List.not_mem_nil ev)
      | some m =>
        have htr : (serverPush muts s clientId (some ms)).trace =
            [PushEvent.appendPatch patch, PushEvent.incrementVersion,
             PushEvent.recordLastMutationId clientId m.mutationId]
              ++ s.clients.map PushEvent.poke := by
          simp [serverPush, hrun, hlast]
        rw [htr] at hi hj
        refine trace_pokes_last _ _ i j e e' ?_ ?_ hi hpoke hj hw
        · intro ev hev
          rcases List.mem_cons.mp hev with rfl | hev
          · rfl
          rcases List.mem_cons.mp hev with rfl | hev
          · rfl
          rcases List.mem_cons.mp hev with rfl | hev
          · rfl
          exact absurd hev (List.not_mem_nil ev)
        · intro ev hev
          obtain ⟨c0, _, rfl⟩ := List.mem_map.mp hev
          rfl

/-- Witness for C8: a successful one-mutation push to a server with one
connected client puts the poke at position 3, after the writes at 0-2. -/
theorem c8_writes_before_pokes_witness : (0 : Nat) < 3 :=
  c8_writes_before_pokes demoMutators ⟨[], 0, [], [7]⟩ "c1"
    (some [⟨"id1", "noop", []⟩]) 3 0 (PushEvent.poke 7)
    (PushEvent.appendPatch []) (by decide) rfl (by decide) rfl

/-- `splice` at a missed `indexOf` is the identity. -/
theorem removeFirst_of_not_has {l : List Nat} {cb : Nat}
    (h : hasCb l cb = false) : removeFirst l cb = l := by
  induction l with
  | nil => rfl
  | cons c rest ih =>
    simp only [hasCb, Bool.or_eq_false_iff, decide_eq_false_iff_not] at h
    simp [removeFirst, h.1, ih h.2]

/-- `indexOf` hits exactly when at least one occurrence is present. -/
theorem hasCb_eq_false_iff {l : List Nat} {cb : Nat} :
    hasCb l cb = false ↔ countOcc l cb = 0 := by
  induction l with
  | nil => simp [hasCb, countOcc]
  | cons c rest ih =>
    by_cases hc : c = cb <;>
      simp [hasCb, countOcc, hc, ih]

/-- Removing the first occurrence drops the occurrence count by one. -/
theorem countOcc_removeFirst (l : List Nat) (cb : Nat) :
    countOcc (removeFirst l cb) cb = countOcc l cb - 1 := by
  induction l with
  | nil => rfl
  | cons c rest ih =>
    by_cases hc : c = cb
    · simp [removeFirst, countOcc, hc]
    · simp only [removeFirst, if_neg hc, countOcc, ih]
      omega

/-- C9 (amended): each unsubscribe call removes at most one registration —
the key's list becomes `removeFirst` of the old one, whose occurrence
count for the callback drops by exactly one (when positive), and no other
key's list changes; calling the same unsubscribe twice is a no-op
PROVIDED the callback is registered at most once for the key (with
duplicate registrations each call removes one more occurrence, see the
counterexample). -/
theorem c9_unsubscribe_removes_one (s : ClientState) (key : String)
    (cb : Nat) (l : List Nat)
    (hl : alistLookup s.subscriptions key = some l) :
    alistLookup (unsubscribe s key cb).subscriptions key
      = some (removeFirst l cb)
    ∧ countOcc (removeFirst l cb) cb = countOcc l cb - 1
    ∧ (∀ k2, k2 ≠ key →
        alistLookup (unsubscribe s key cb).subscriptions k2
          = alistLookup s.subscriptions k2)
    ∧ (countOcc l cb ≤ 1 →
        unsubscribe (unsubscribe s key cb) key cb = unsubscribe s key cb) := by
  have hu : unsubscribe s key cb =
      if hasCb l cb then
        { s with subscriptions :=
            alistSet s.subscriptions key (removeFirst l cb) }
      else s := by
    unfold unsubscribe
    rw [hl]
  cases hcb : hasCb l cb with
  | false =>
    rw [hu, if_neg (by simp [hcb])]
    have hrf : removeFirst l cb = l := removeFirst_of_not_has hcb
    refine ⟨by rw [hrf]; exact hl, countOcc_removeFirst l cb,
      fun k2 _ => rfl, fun _ => ?_⟩
    rw [hu, if_neg (by simp [hcb])]
  | true =>
    rw [hu, if_pos (by simp [hcb])]
    have hset : alistLookup
        (alistSet s.subscriptions key (removeFirst l cb)) key
        = some (removeFirst l cb) := by
      rw [alistLookup_alistSet]
      exact if_pos rfl
    refine ⟨hset, countOcc_removeFirst l cb, ?_, ?_⟩
    · intro k2 hk2
      rw [alistLookup_alistSet]
      exact if_neg hk2
    · intro hle
      have hpos : countOcc l cb ≠ 0 := fun h0 =>
        by rw [hasCb_eq_false_iff.mpr h0] at hcb; cases hcb
      have hzero : countOcc (removeFirst l cb) cb = 0 := by
        rw [countOcc_removeFirst]; omega
      have hno : hasCb (removeFirst l cb) cb = false :=
        hasCb_eq_false_iff.mpr hzero
      have hu2 : unsubscribe
          { s with subscriptions :=
              alistSet s.subscriptions key (removeFirst l cb) } key cb
          = { s with subscriptions :=
              alistSet s.subscriptions key (removeFirst l cb) } := by
        unfold unsubscribe
        simp only [hset]
        rw [hno]
        simp
      exact hu2

/-- Witness for the amended C9 theorem: a single registration is removed
and the second unsubscribe call is a no-op. -/
theorem c9_unsubscribe_removes_one_witness :
    alistLookup (unsubscribe (watch initialClient "k" 0) "k"
        0).subscriptions "k" = some (removeFirst [0] 0)
    ∧ unsubscribe (unsubscribe (watch initialClient "k" 0) "k" 0) "k" 0
      = unsubscribe (watch initialClient "k" 0) "k" 0 :=
  ⟨(c9_unsubscribe_removes_one (watch initialClient "k" 0) "k" 0 [0]
      (by decide)).1,
   (c9_unsubscribe_removes_one (watch initialClient "k" 0) "k" 0 [0]
      (by decide)).2.2.2 (by decide)⟩

/-- C9 counterexample: register the same callback twice for the same key.
The first unsubscribe call removes one occurrence; the SECOND call of the
same unsubscribe removes the remaining one (its `indexOf` finds the other
registration), so calling it twice does not leave the registry as calling
it once. -/
theorem c9_counterexample :
    watch (watch initialClient "k" 0) "k" 0 = ⟨[], [], none, [("k", [0, 0])]⟩
    ∧ unsubscribe ⟨[], [], none, [("k", [0, 0])]⟩ "k" 0
      = ⟨[], [], none, [("k", [0])]⟩
    ∧ unsubscribe ⟨[], [], none, [("k", [0])]⟩ "k" 0
      = ⟨[], [], none, [("k", [])]⟩
    ∧ (⟨[], [], none, [("k", [])]⟩ : ClientState)
      ≠ ⟨[], [], none, [("k", [0])]⟩ := by decide
